import Mathlib

/-!
Shallow embedding of the todoist-kanban-vim client core: the task projection
(select in src/src/components/KanbanBoard.tsx), the optimistic move / delete /
complete cache updates and their rollback, the per-task-id debounce of remote
label updates (src/src/services/todoistService.ts), the date filter and the
display sort (src/unnamed/part_002), and the search machinery.

Dates are abstracted to integers: a due-date string denotes a calendar instant,
and the code only ever compares the parsed values, so a due date is modelled as
the integer timestamp it parses to (midnight-normalised where the code
normalises).  JavaScript string lowercasing is modelled per character.
-/

namespace TodoistKanban

/-- The kanban column enumeration (src/unnamed/part_010, KanbanColumn). -/
inductive Column where
  | NOT_SET
  | TODO
  | IN_PROGRESS
  | BLOCKED
  | DONE
deriving DecidableEq

/-- The string a column interpolates to in a template literal such as
KANBAN_${newColumn} (columns are string literals in the source). -/
def Column.name : Column → String
  | .NOT_SET => "NOT_SET"
  | .TODO => "TODO"
  | .IN_PROGRESS => "IN_PROGRESS"
  | .BLOCKED => "BLOCKED"
  | .DONE => "DONE"

/-- KANBAN_LABELS (src/unnamed/part_010 lines 74-80) as an ordered association
list, mirroring the object's own key order as seen by Object.keys and
Object.entries. -/
def kanbanEntries : List (String × Column) :=
  [("KANBAN_NOT_SET", Column.NOT_SET),
   ("KANBAN_TODO", Column.TODO),
   ("KANBAN_IN_PROGRESS", Column.IN_PROGRESS),
   ("KANBAN_BLOCKED", Column.BLOCKED),
   ("KANBAN_DONE", Column.DONE)]

/-- Object.keys(KANBAN_LABELS). -/
def kanbanKeys : List String := kanbanEntries.map (fun e => e.1)

/-- KANBAN_LABELS[label]: the column a reserved key maps to, none for any
other string. -/
def kanbanLookup (label : String) : Option Column :=
  (kanbanEntries.find? (fun e => e.1 == label)).map (fun e => e.2)

/-- A raw cached task record: the fields of the remote Task type that the
embedded code reads.  The due-date descriptor is abstracted to the parsed
value of its date field. -/
structure Task where
  id : String
  content : String
  labels : List String
  priority : Int
  parentId : Option String
  projectId : String
  dueDate : Option Int
deriving DecidableEq

/-- A projected board task (KanbanTask view model). -/
structure KTask where
  id : String
  content : String
  column : Column
  labels : List String
  priority : Int
  dueDate : Option Int
deriving DecidableEq

/-- Character-list test: p occurs at the start of s. -/
def pfxChars : List Char → List Char → Bool
  | [], _ => true
  | _ :: _, [] => false
  | a :: as, b :: bs => a == b && pfxChars as bs

/-- label.startsWith(p). -/
def strStarts (label p : String) : Bool := pfxChars p.data label.data

/-- The filter body of the select callback (KanbanBoard.tsx lines 96-123):
keep a task when its parent matches, the project allow-list (when non-empty)
contains its project, and the label allow-list (when non-empty) intersects its
non-KANBAN labels. -/
def selectFilter (currentParentId : Option String) (selectedProjects : List String)
    (selectedLabels : List String) (t : Task) : Bool :=
  if t.parentId != currentParentId then false
  else if selectedProjects.length > 0 && !(selectedProjects.contains t.projectId) then false
  else if selectedLabels.length > 0 then
    let nonKanbanLabels := t.labels.filter (fun label => !(strStarts label "KANBAN_"))
    if nonKanbanLabels.length == 0 then false
    else nonKanbanLabels.any (fun label => selectedLabels.contains label)
  else true

/-- The column derivation of the select callback (KanbanBoard.tsx lines
124-135): the first label that is a KANBAN_LABELS key picks the column,
otherwise NOT_SET. -/
def deriveColumn (labels : List String) : Column :=
  match labels.find? (fun label => kanbanKeys.contains label) with
  | some k => (kanbanLookup k).getD Column.NOT_SET
  | none => Column.NOT_SET

/-- The map body of the select callback (KanbanBoard.tsx lines 124-145),
including the falsy-field defaults for content and priority. -/
def projectTask (t : Task) : KTask :=
  { id := t.id
    content := if t.content == "" then "Untitled Task" else t.content
    column := deriveColumn t.labels
    labels := t.labels
    priority := if t.priority == 0 then 1 else t.priority
    dueDate := t.dueDate }

/-- The whole select callback: filter the raw cache, then project. -/
def selectTasks (response : List Task) (currentParentId : Option String)
    (selectedProjects selectedLabels : List String) : List KTask :=
  (response.filter (selectFilter currentParentId selectedProjects selectedLabels)).map projectTask

/-- Drop every label that is a KANBAN_LABELS key (the strip step shared by
mutationFn and onMutate). -/
def stripKanban (labels : List String) : List String :=
  labels.filter (fun label => !(kanbanKeys.contains label))

/-- Object.entries(KANBAN_LABELS).find(([, value]) => value === newColumn)?.[0]
(KanbanBoard.tsx lines 170-172). -/
def newKanbanLabel (newColumn : Column) : Option String :=
  (kanbanEntries.find? (fun e => e.2 == newColumn)).map (fun e => e.1)

/-- moveTaskMutation.mutationFn (KanbanBoard.tsx lines 157-178): find the task
in the projected list; when absent, or when no reserved key maps to the target
column, no remote call is made; otherwise the stripped labels plus the new key
are sent for that task id. -/
def mutationFnCall (tasks : List KTask) (taskId : String) (newColumn : Column) :
    Option (String × List String) :=
  match tasks.find? (fun t => t.id == taskId) with
  | none => none
  | some task =>
    match newKanbanLabel newColumn with
    | some k => some (task.id, stripKanban task.labels ++ [k])
    | none => none

/-- The optimistic label rewrite of moveTaskMutation.onMutate (KanbanBoard.tsx
lines 189-194): strip the reserved keys, then append KANBAN_${newColumn}. -/
def optimisticLabels (labels : List String) (newColumn : Column) : List String :=
  stripKanban labels ++ ["KANBAN_" ++ newColumn.name]

/-- The per-element cache rewrite of moveTaskMutation.onMutate. -/
def moveOne (taskId : String) (newColumn : Column) (t : Task) : Task :=
  if t.id == taskId then { t with labels := optimisticLabels t.labels newColumn } else t

/-- The setQueryData update of moveTaskMutation.onMutate (KanbanBoard.tsx lines
183-198). -/
def moveUpdate (cache : List Task) (taskId : String) (newColumn : Column) : List Task :=
  cache.map (moveOne taskId newColumn)

/-- The setQueryData update of deleteTaskMutation.onMutate (KanbanBoard.tsx
lines 284-287). -/
def deleteUpdate (cache : List Task) (taskId : String) : List Task :=
  cache.filter (fun t => !(t.id == taskId))

/-- The setQueryData update of completeTaskMutation.onMutate (KanbanBoard.tsx
lines 316-319). -/
def completeUpdate (cache : List Task) (taskId : String) : List Task :=
  cache.filter (fun t => !(t.id == taskId))

inductive ToastKind where
  | error
  | success
deriving DecidableEq

structure ToastMsg where
  message : String
  kind : ToastKind
deriving DecidableEq

/-- The board-level shared state the mutation protocol touches: the tasks
query cache (none when never populated, as getQueryData then returns
undefined) and the toast slot. -/
structure Board where
  cache : Option (List Task)
  toast : Option ToastMsg
deriving DecidableEq

/-- The context object returned by moveTaskMutation.onMutate. -/
structure MoveCtx where
  previousTasks : Option (List Task)
deriving DecidableEq

/-- moveTaskMutation.onMutate (KanbanBoard.tsx lines 179-201): snapshot the
cache, then rewrite it optimistically (the updater returns oldData unchanged
when the cache is unpopulated). -/
def moveOnMutate (b : Board) (taskId : String) (newColumn : Column) : Board × MoveCtx :=
  ({ b with cache := b.cache.map (fun old => moveUpdate old taskId newColumn) },
   { previousTasks := b.cache })

/-- moveTaskMutation.onError (KanbanBoard.tsx lines 202-210): restore the
snapshot when one was captured, and record an error toast whose message
defaults when the thrown message is falsy. -/
def moveOnError (b : Board) (errMsg : String) (ctx : MoveCtx) : Board :=
  { cache :=
      match ctx.previousTasks with
      | some prev => some prev
      | none => b.cache
    toast := some { message := if errMsg == "" then "Failed to move task" else errMsg
                    kind := ToastKind.error } }

/-- The date-filter mode (part_002 uses the literal "today_upcoming" for the
today-or-later mode). -/
inductive DateFilter where
  | all
  | today
  | today_upcoming
deriving DecidableEq

/-- filterTasksByDate (src/unnamed/part_002 lines 705-744): "all" passes the
list through; the other modes drop tasks with no due date, keep a task under
"today" when its normalised due date equals today's, and under
"today_upcoming" when it is on or after today's. -/
def filterTasksByDate (dateFilter : DateFilter) (today : Int) (tasks : List KTask) :
    List KTask :=
  if dateFilter = DateFilter.all then tasks
  else
    tasks.filter (fun task =>
      match task.dueDate with
      | none => false
      | some d =>
        if dateFilter = DateFilter.today then d == today
        else if dateFilter = DateFilter.today_upcoming then decide (today ≤ d)
        else true)

/-- The due-date leg of the sortTasks comparator: earliest date first, a
dated task before an undated one, two undated tasks tied. -/
def dueLe : Option Int → Option Int → Bool
  | some da, some db => decide (da ≤ db)
  | some _, none => true
  | none, some _ => false
  | none, none => true

/-- The sort comparator of sortTasks (src/unnamed/part_002 lines 747-768) read
as a non-strict order: taskLe a b holds exactly when the comparator returns a
non-positive number on (a, b). -/
def taskLe (a b : KTask) : Bool :=
  if a.priority = b.priority then dueLe a.dueDate b.dueDate
  else decide (b.priority ≤ a.priority)

/-- sortTasks (src/unnamed/part_002 lines 747-768): Array.prototype.sort is
specified to be stable, so it is embedded as a stable merge sort under the
comparator order. -/
def sortTasks (tasks : List KTask) : List KTask := tasks.mergeSort taskLe

/-- The pair of fields the comparator ties on: two tasks compare equal exactly
when their sort keys coincide. -/
def sortKey (t : KTask) : Int × Option Int := (t.priority, t.dueDate)

/-- Character-list test: n occurs somewhere inside h. -/
def subAt : List Char → List Char → Bool
  | n, [] => pfxChars n []
  | n, c :: rest => pfxChars n (c :: rest) || subAt n rest

/-- h.includes(n) for strings. -/
def strContains (h n : String) : Bool := subAt n.data h.data

/-- s.toLowerCase(), modelled per character. -/
def strLower (s : String) : String := String.mk (s.data.map Char.toLower)

/-- The match predicate of handleSearch: case-insensitive substring match of
the query against the task content. -/
def matchesQuery (query : String) (t : KTask) : Bool :=
  strContains (strLower t.content) (strLower query)

/-- The derived match list of handleSearch (KanbanBoard.tsx lines 375-378). -/
def searchMatches (tasks : List KTask) (query : String) : List KTask :=
  tasks.filter (matchesQuery query)

/-- The search-related component state. -/
structure SearchState where
  results : List KTask
  idx : Nat
  selected : Option String
deriving DecidableEq

/-- handleSearch (KanbanBoard.tsx lines 368-385): an empty query clears the
results and the selection; otherwise the match list is recomputed, the cursor
reset, and, when search is active and a match exists, the selection moves to
the first match. -/
def handleSearch (tasks : List KTask) (query : String) (isSearchActive : Bool)
    (s : SearchState) : SearchState :=
  if query == "" then { results := [], idx := s.idx, selected := none }
  else
    let found := searchMatches tasks query
    { results := found
      idx := 0
      selected :=
        if found.length > 0 && isSearchActive then found.head?.map (fun t => t.id)
        else s.selected }

/-- The n / N dispatch of handleKeyPress (KanbanBoard.tsx lines 482-493):
with a non-empty match list, advance the cursor circularly (backwards when
shift is held) and select the matched task.  The backward index is computed
as in the source on integers, which on naturals is idx + length - 1. -/
def searchStep (shiftKey : Bool) (s : SearchState) : SearchState :=
  if s.results.length > 0 then
    let newIndex :=
      if shiftKey then (s.idx + s.results.length - 1) % s.results.length
      else (s.idx + 1) % s.results.length
    { s with idx := newIndex, selected := (s.results.get? newIndex).map (fun t => t.id) }
  else s

/-- An event of the debounced updater: updateTaskLabels registers (upd), and a
registered timeout fires (fire).  A cleared or already-fired timeout has no
fire event: firing is a no-op unless the id has a pending entry. -/
inductive DbEvent where
  | upd (taskId : String) (labels : List String)
  | fire (taskId : String)
deriving DecidableEq

/-- The state of TodoistService.debouncedUpdateTask plus the log of remote
updateTask calls actually issued. -/
structure DbState where
  pending : List (String × List String)
  sent : List (String × List String)
deriving DecidableEq

/-- The pending labels registered for a task id, if any. -/
def pendingFor (s : DbState) (taskId : String) : Option (List String) :=
  (s.pending.find? (fun e => e.1 == taskId)).map (fun e => e.2)

/-- One step of updateTaskLabels (src/src/services/todoistService.ts lines
38-63): upd clears any pending timeout for the same id and registers the new
labels; fire issues the remote call for the pending labels of that id and
removes the entry, and does nothing when no timeout is pending. -/
def dbStep (s : DbState) : DbEvent → DbState
  | .upd taskId labels =>
    { s with pending := s.pending.filter (fun e => !(e.1 == taskId)) ++ [(taskId, labels)] }
  | .fire taskId =>
    match s.pending.find? (fun e => e.1 == taskId) with
    | some e =>
      { pending := s.pending.filter (fun x => !(x.1 == taskId))
        sent := s.sent ++ [(taskId, e.2)] }
    | none => s

/-- Run a sequence of debounce events. -/
def dbRun (s : DbState) (evs : List DbEvent) : DbState := evs.foldl dbStep s

/-- Any label whose text starts with the reserved marker, the reading of
reserved label used by the spec sentences under scrutiny. -/
def hasReservedLabel (labels : List String) : Bool :=
  labels.any (fun label => strStarts label "KANBAN_")

/-- Filtering by a predicate after filtering by its negation leaves nothing. -/
theorem filter_neg_then_pos {α : Type} (p : α → Bool) (l : List α) :
    (l.filter (fun a => !(p a))).filter p = [] := by
  induction l with
  | nil => rfl
  | cons a l ih => by_cases h : p a <;> simp [List.filter_cons, h, ih]

/-- Filtering by the negation of a predicate is idempotent. -/
theorem filter_neg_idem {α : Type} (p : α → Bool) (l : List α) :
    (l.filter (fun a => !(p a))).filter (fun a => !(p a)) = l.filter (fun a => !(p a)) := by
  induction l with
  | nil => rfl
  | cons a l ih => by_cases h : p a <;> simp [List.filter_cons, h, ih]

/-- C1: for every move mutation whose remote call fails, the cache after the
error handler (onError after onMutate) equals the pre-move snapshot — hence
the moved task's labels and projected column revert exactly under any
projection parameters — and an error toast is recorded. -/
theorem claim_C1_rollback (b : Board) (taskId : String) (newColumn : Column)
    (errMsg : String) (pid : Option String) (projs labs : List String) :
    (moveOnError (moveOnMutate b taskId newColumn).1 errMsg
        (moveOnMutate b taskId newColumn).2).cache = b.cache ∧
    ((moveOnError (moveOnMutate b taskId newColumn).1 errMsg
        (moveOnMutate b taskId newColumn).2).cache.map
        (fun cache => selectTasks cache pid projs labs) =
      b.cache.map (fun cache => selectTasks cache pid projs labs)) ∧
    (moveOnError (moveOnMutate b taskId newColumn).1 errMsg
        (moveOnMutate b taskId newColumn).2).toast =
      some { message := if errMsg == "" then "Failed to move task" else errMsg
             kind := ToastKind.error } := by
  cases hb : b.cache <;> simp [moveOnMutate, moveOnError, hb]

/-- C9: the optimistic label list written into the cache (strip the reserved
keys, append "KANBAN_" ++ column name) coincides element for element with the
label list the mutation function sends for the found task (strip the reserved
keys, append the KANBAN_LABELS key mapping to the target column). -/
theorem claim_C9_optimistic_refines_remote (tasks : List KTask) (taskId : String)
    (newColumn : Column) (t : KTask)
    (h : tasks.find? (fun x => x.id == taskId) = some t) :
    newKanbanLabel newColumn = some ("KANBAN_" ++ newColumn.name) ∧
    mutationFnCall tasks taskId newColumn = some (t.id, optimisticLabels t.labels newColumn) := by
  cases newColumn <;> exact ⟨rfl, by unfold mutationFnCall; rw [h]; rfl⟩

/-- C9 witness: the refinement instantiated at a one-task cache. -/
theorem claim_C9_witness :
    ([(⟨"1", "t", Column.NOT_SET, ["a", "KANBAN_TODO"], 1, none⟩ : KTask)].find?
        (fun x => x.id == "1") =
      some (⟨"1", "t", Column.NOT_SET, ["a", "KANBAN_TODO"], 1, none⟩ : KTask)) ∧
    (newKanbanLabel Column.DONE = some ("KANBAN_" ++ Column.DONE.name) ∧
      mutationFnCall [⟨"1", "t", Column.NOT_SET, ["a", "KANBAN_TODO"], 1, none⟩] "1" Column.DONE =
        some ("1", optimisticLabels ["a", "KANBAN_TODO"] Column.DONE)) :=
  ⟨by decide,
    claim_C9_optimistic_refines_remote
      [⟨"1", "t", Column.NOT_SET, ["a", "KANBAN_TODO"], 1, none⟩] "1" Column.DONE
      ⟨"1", "t", Column.NOT_SET, ["a", "KANBAN_TODO"], 1, none⟩ (by decide)⟩

/-- C10: the optimistic updates are frame-exact — the move update rewrites the
cache pointwise, leaving every entry with a different id unchanged and
replacing only the labels field of a targeted entry, while the delete and
complete updates keep exactly the entries with a different id, in their
original order. -/
theorem claim_C10_frame (cache : List Task) (taskId : String) (newColumn : Column) :
    moveUpdate cache taskId newColumn = cache.map (moveOne taskId newColumn) ∧
    (∀ tk : Task, ¬ tk.id = taskId → moveOne taskId newColumn tk = tk) ∧
    (∀ tk : Task, tk.id = taskId →
      moveOne taskId newColumn tk = { tk with labels := optimisticLabels tk.labels newColumn }) ∧
    (deleteUpdate cache taskId).Sublist cache ∧
    (∀ tk : Task, tk ∈ deleteUpdate cache taskId ↔ tk ∈ cache ∧ ¬ tk.id = taskId) ∧
    (completeUpdate cache taskId).Sublist cache ∧
    (∀ tk : Task, tk ∈ completeUpdate cache taskId ↔ tk ∈ cache ∧ ¬ tk.id = taskId) := by
  refine ⟨rfl, ?_, ?_, List.filter_sublist _, ?_, List.filter_sublist _, ?_⟩
  · intro tk h; simp [moveOne, h]
  · intro tk h; simp [moveOne, h]
  · intro tk; simp [deleteUpdate, List.mem_filter, and_comm]
  · intro tk; simp [completeUpdate, List.mem_filter, and_comm]

/-- C3 counterexample: a task labelled only KANBAN_NOT_SET projects to
NOT_SET although its label set does contain a reserved-marker label, so the
claimed equivalence fails at this input. -/
theorem claim_C3_counterexample :
    ¬ (deriveColumn ["KANBAN_NOT_SET"] = Column.NOT_SET ↔
        hasReservedLabel ["KANBAN_NOT_SET"] = false) := by decide

/-- C3 amended: the projected column is NOT_SET iff the label set contains no
KANBAN_LABELS key or the first such key is KANBAN_NOT_SET; otherwise (and in
that second case too) the column is the one mapped from the first key. -/
theorem claim_C3_amended (labels : List String) :
    (deriveColumn labels = Column.NOT_SET ↔
      (labels.find? (fun label => kanbanKeys.contains label) = none ∨
       labels.find? (fun label => kanbanKeys.contains label) = some "KANBAN_NOT_SET")) ∧
    (∀ k, labels.find? (fun label => kanbanKeys.contains label) = some k →
      kanbanLookup k = some (deriveColumn labels)) := by
  cases h : labels.find? (fun label => kanbanKeys.contains label) with
  | none =>
    have hderive : deriveColumn labels = Column.NOT_SET := by
      unfold deriveColumn; rw [h]
    constructor
    · rw [hderive]; simp
    · intro k hk; exact Option.noConfusion hk
  | some k =>
    have hk : kanbanKeys.contains k = true := List.find?_some h
    have hmem : k ∈ kanbanKeys := by simpa using hk
    have hcases : k = "KANBAN_NOT_SET" ∨ k = "KANBAN_TODO" ∨ k = "KANBAN_IN_PROGRESS" ∨
        k = "KANBAN_BLOCKED" ∨ k = "KANBAN_DONE" := by
      simpa [kanbanKeys, kanbanEntries] using hmem
    have hderive : deriveColumn labels = (kanbanLookup k).getD Column.NOT_SET := by
      unfold deriveColumn; rw [h]
    constructor
    · rw [hderive]
      rcases hcases with h1 | h1 | h1 | h1 | h1 <;> subst h1 <;> decide
    · intro k2 hk2
      injection hk2 with he
      subst he
      rw [hderive]
      rcases hcases with h1 | h1 | h1 | h1 | h1 <;> subst h1 <;> decide

/-- C2 counterexample: a label that merely carries the reserved marker without
being a KANBAN_LABELS key (here KANBAN_WAITING) survives the strip step, so
the produced list carries two marker labels, not exactly one. -/
theorem claim_C2_counterexample :
    mutationFnCall [⟨"1", "t", Column.NOT_SET, ["KANBAN_WAITING"], 1, none⟩] "1" Column.TODO =
      some ("1", ["KANBAN_WAITING", "KANBAN_TODO"]) ∧
    ¬ ((["KANBAN_WAITING", "KANBAN_TODO"].filter
        (fun label => strStarts label "KANBAN_")).length = 1) := by decide

/-- C2 amended: with reserved labels read as the KANBAN_LABELS key set, the
label list produced by a move for the found task contains no key except
exactly one new key for the target column, appended after all existing keys
have been removed, and the non-key labels are preserved verbatim in their
original relative order. -/
theorem claim_C2_amended (tasks : List KTask) (taskId : String) (newColumn : Column)
    (t : KTask) (h : tasks.find? (fun x => x.id == taskId) = some t) :
    ∃ k, newKanbanLabel newColumn = some k ∧
      kanbanKeys.contains k = true ∧
      kanbanLookup k = some newColumn ∧
      mutationFnCall tasks taskId newColumn = some (t.id, stripKanban t.labels ++ [k]) ∧
      (stripKanban t.labels ++ [k]).filter (fun label => kanbanKeys.contains label) = [k] ∧
      (stripKanban t.labels ++ [k]).filter (fun label => !(kanbanKeys.contains label)) =
        t.labels.filter (fun label => !(kanbanKeys.contains label)) := by
  have h5 : ∀ k : String, k ∈ kanbanKeys → ∀ l : List String,
      (stripKanban l ++ [k]).filter (fun label => kanbanKeys.contains label) = [k] := by
    intro k hk l
    rw [List.filter_append, stripKanban, filter_neg_then_pos]
    simp [List.filter_cons, hk]
  have h6 : ∀ k : String, k ∈ kanbanKeys → ∀ l : List String,
      (stripKanban l ++ [k]).filter (fun label => !(kanbanKeys.contains label)) =
        l.filter (fun label => !(kanbanKeys.contains label)) := by
    intro k hk l
    rw [List.filter_append, stripKanban, filter_neg_idem]
    simp [List.filter_cons, hk]
  cases newColumn with
  | NOT_SET =>
    exact ⟨"KANBAN_NOT_SET", rfl, by decide, by decide,
      by unfold mutationFnCall; rw [h]; rfl,
      h5 "KANBAN_NOT_SET" (by decide) t.labels, h6 "KANBAN_NOT_SET" (by decide) t.labels⟩
  | TODO =>
    exact ⟨"KANBAN_TODO", rfl, by decide, by decide,
      by unfold mutationFnCall; rw [h]; rfl,
      h5 "KANBAN_TODO" (by decide) t.labels, h6 "KANBAN_TODO" (by decide) t.labels⟩
  | IN_PROGRESS =>
    exact ⟨"KANBAN_IN_PROGRESS", rfl, by decide, by decide,
      by unfold mutationFnCall; rw [h]; rfl,
      h5 "KANBAN_IN_PROGRESS" (by decide) t.labels, h6 "KANBAN_IN_PROGRESS" (by decide) t.labels⟩
  | BLOCKED =>
    exact ⟨"KANBAN_BLOCKED", rfl, by decide, by decide,
      by unfold mutationFnCall; rw [h]; rfl,
      h5 "KANBAN_BLOCKED" (by decide) t.labels, h6 "KANBAN_BLOCKED" (by decide) t.labels⟩
  | DONE =>
    exact ⟨"KANBAN_DONE", rfl, by decide, by decide,
      by unfold mutationFnCall; rw [h]; rfl,
      h5 "KANBAN_DONE" (by decide) t.labels, h6 "KANBAN_DONE" (by decide) t.labels⟩

/-- C2 witness: the amended claim instantiated at a one-task cache holding a
user label and a stale reserved key. -/
theorem claim_C2_witness :
    ([(⟨"1", "t", Column.TODO, ["x", "KANBAN_TODO"], 1, none⟩ : KTask)].find?
        (fun x => x.id == "1") =
      some (⟨"1", "t", Column.TODO, ["x", "KANBAN_TODO"], 1, none⟩ : KTask)) ∧
    (∃ k, newKanbanLabel Column.DONE = some k ∧
      kanbanKeys.contains k = true ∧
      kanbanLookup k = some Column.DONE ∧
      mutationFnCall [⟨"1", "t", Column.TODO, ["x", "KANBAN_TODO"], 1, none⟩] "1" Column.DONE =
        some ("1", stripKanban ["x", "KANBAN_TODO"] ++ [k]) ∧
      (stripKanban ["x", "KANBAN_TODO"] ++ [k]).filter
        (fun label => kanbanKeys.contains label) = [k] ∧
      (stripKanban ["x", "KANBAN_TODO"] ++ [k]).filter
        (fun label => !(kanbanKeys.contains label)) =
        ["x", "KANBAN_TODO"].filter (fun label => !(kanbanKeys.contains label))) :=
  ⟨by decide,
    claim_C2_amended [⟨"1", "t", Column.TODO, ["x", "KANBAN_TODO"], 1, none⟩] "1" Column.DONE
      ⟨"1", "t", Column.TODO, ["x", "KANBAN_TODO"], 1, none⟩ (by decide)⟩

/-- C5: the date filter passes everything under "all"; under "today" it keeps
a task iff its due date equals the current date; under the today-or-later
mode it keeps a task iff its due date is on or after the current date; a task
without a due date is excluded under both date-bounded modes. -/
theorem claim_C5_date_filter (today : Int) (tasks : List KTask) (t : KTask) :
    filterTasksByDate DateFilter.all today tasks = tasks ∧
    (t ∈ filterTasksByDate DateFilter.today today tasks ↔
      t ∈ tasks ∧ t.dueDate = some today) ∧
    (t ∈ filterTasksByDate DateFilter.today_upcoming today tasks ↔
      t ∈ tasks ∧ ∃ d, t.dueDate = some d ∧ today ≤ d) ∧
    (t.dueDate = none →
      t ∉ filterTasksByDate DateFilter.today today tasks ∧
      t ∉ filterTasksByDate DateFilter.today_upcoming today tasks) := by
  have h1 : t ∈ filterTasksByDate DateFilter.today today tasks ↔
      t ∈ tasks ∧ t.dueDate = some today := by
    simp only [filterTasksByDate, List.mem_filter]
    cases hd : t.dueDate <;> simp [hd]
  have h2 : t ∈ filterTasksByDate DateFilter.today_upcoming today tasks ↔
      t ∈ tasks ∧ ∃ d, t.dueDate = some d ∧ today ≤ d := by
    simp only [filterTasksByDate, List.mem_filter]
    cases hd : t.dueDate <;> simp [hd]
  refine ⟨rfl, h1, h2, fun hn => ⟨fun hm => ?_, fun hm => ?_⟩⟩
  · rcases h1.1 hm with ⟨-, he⟩; rw [hn] at he; cases he
  · rcases h2.1 hm with ⟨-, d, he, -⟩; rw [hn] at he; cases he

/-- C8: a move invoked with a task id absent from the local cache is silently
skipped: the mutation function issues no remote call under any projection
parameters, the optimistic rewrite leaves the cache unchanged, and onMutate
leaves the whole board (cache and toast) as it was. -/
theorem claim_C8_missing_task (cache : List Task) (pid : Option String)
    (projs labs : List String) (taskId : String) (newColumn : Column) (b : Board)
    (habs : ∀ tk ∈ cache, ¬ tk.id = taskId) (hb : b.cache = some cache) :
    mutationFnCall (selectTasks cache pid projs labs) taskId newColumn = none ∧
    moveUpdate cache taskId newColumn = cache ∧
    (moveOnMutate b taskId newColumn).1 = b := by
  have hfind : (selectTasks cache pid projs labs).find? (fun x => x.id == taskId) = none := by
    rw [List.find?_eq_none]
    intro x hx
    obtain ⟨y, hy, rfl⟩ := List.mem_map.1 hx
    have hyc : y ∈ cache := (List.mem_filter.1 hy).1
    simpa [projectTask] using habs y hyc
  have hmv : moveUpdate cache taskId newColumn = cache := by
    unfold moveUpdate
    have hone : ∀ tk ∈ cache, moveOne taskId newColumn tk = tk := by
      intro tk htk; simp [moveOne, habs tk htk]
    calc cache.map (moveOne taskId newColumn) = cache.map id := List.map_congr_left hone
      _ = cache := List.map_id cache
  refine ⟨?_, hmv, ?_⟩
  · unfold mutationFnCall; rw [hfind]
  · rcases b with ⟨bc, bt⟩
    simp only [Board.cache] at hb
    subst hb
    simp [moveOnMutate, hmv]

/-- C8 witness: the skip behaviour at a one-task cache and a foreign id. -/
theorem claim_C8_witness :
    (∀ tk ∈ [(⟨"1", "c", [], 1, none, "p", none⟩ : Task)], ¬ tk.id = "2") ∧
    ((⟨some [⟨"1", "c", [], 1, none, "p", none⟩], none⟩ : Board).cache =
      some [(⟨"1", "c", [], 1, none, "p", none⟩ : Task)]) ∧
    (mutationFnCall (selectTasks [⟨"1", "c", [], 1, none, "p", none⟩] none [] []) "2"
        Column.TODO = none ∧
      moveUpdate [⟨"1", "c", [], 1, none, "p", none⟩] "2" Column.TODO =
        [⟨"1", "c", [], 1, none, "p", none⟩] ∧
      (moveOnMutate ⟨some [⟨"1", "c", [], 1, none, "p", none⟩], none⟩ "2" Column.TODO).1 =
        ⟨some [⟨"1", "c", [], 1, none, "p", none⟩], none⟩) :=
  ⟨by decide, rfl,
    claim_C8_missing_task [⟨"1", "c", [], 1, none, "p", none⟩] none [] [] "2" Column.TODO
      ⟨some [⟨"1", "c", [], 1, none, "p", none⟩], none⟩ (by decide) rfl⟩

/-- C7: for a non-empty query the match list is exactly the displayed tasks
whose content contains the query as a case-insensitive substring, in display
order; and with a non-empty match list, next advances the cursor by one modulo
the list length and selects that match, while previous does the same
backwards. -/
theorem claim_C7_search (tasks : List KTask) (query : String) (active : Bool)
    (s0 s : SearchState) (hq : ¬ query = "") (hne : 0 < s.results.length) :
    (handleSearch tasks query active s0).results = tasks.filter (matchesQuery query) ∧
    ((handleSearch tasks query active s0).results).Sublist tasks ∧
    (∀ t : KTask, t ∈ (handleSearch tasks query active s0).results ↔
      t ∈ tasks ∧ matchesQuery query t = true) ∧
    ((searchStep false s).idx = (s.idx + 1) % s.results.length ∧
      ∃ m : KTask, s.results.get? ((s.idx + 1) % s.results.length) = some m ∧
        (searchStep false s).selected = some m.id) ∧
    ((searchStep true s).idx = (s.idx + s.results.length - 1) % s.results.length ∧
      ∃ m : KTask, s.results.get? ((s.idx + s.results.length - 1) % s.results.length) = some m ∧
        (searchStep true s).selected = some m.id) := by
  have hres : (handleSearch tasks query active s0).results = tasks.filter (matchesQuery query) := by
    unfold handleSearch
    simp [hq, searchMatches]
  have hnext : searchStep false s =
      { s with idx := (s.idx + 1) % s.results.length,
               selected := (s.results.get? ((s.idx + 1) % s.results.length)).map
                 (fun t => t.id) } := by
    unfold searchStep; rw [if_pos hne]; rfl
  have hprev : searchStep true s =
      { s with idx := (s.idx + s.results.length - 1) % s.results.length,
               selected := (s.results.get? ((s.idx + s.results.length - 1) %
                   s.results.length)).map (fun t => t.id) } := by
    unfold searchStep; rw [if_pos hne]; rfl
  have hmod1 : (s.idx + 1) % s.results.length < s.results.length := Nat.mod_lt _ hne
  have hmod2 : (s.idx + s.results.length - 1) % s.results.length < s.results.length :=
    Nat.mod_lt _ hne
  obtain ⟨m1, hm1⟩ : ∃ m, s.results.get? ((s.idx + 1) % s.results.length) = some m :=
    ⟨_, List.get?_eq_get hmod1⟩
  obtain ⟨m2, hm2⟩ : ∃ m, s.results.get? ((s.idx + s.results.length - 1) %
      s.results.length) = some m := ⟨_, List.get?_eq_get hmod2⟩
  refine ⟨hres, ?_, ?_, ⟨?_, m1, hm1, ?_⟩, ⟨?_, m2, hm2, ?_⟩⟩
  · rw [hres]; exact List.filter_sublist tasks
  · intro t; rw [hres]; simp [List.mem_filter]
  · rw [hnext]
  · rw [hnext]; show (s.results.get? ((s.idx + 1) % s.results.length)).map
      (fun t => t.id) = some m1.id
    rw [hm1]; rfl
  · rw [hprev]
  · rw [hprev]; show (s.results.get? ((s.idx + s.results.length - 1) %
        s.results.length)).map (fun t => t.id) = some m2.id
    rw [hm2]; rfl

/-- C7 witness: the spec scenario — query "bug" over three tasks matches
positions 0 and 2 in order, and next from the first match cycles to the
second and then wraps. -/
theorem claim_C7_witness :
    (¬ "bug" = "") ∧
    (0 < ([(⟨"0", "Fix bug A", Column.NOT_SET, [], 1, none⟩ : KTask),
           ⟨"2", "bug report", Column.NOT_SET, [], 1, none⟩] : List KTask).length) ∧
    ((handleSearch
        [⟨"0", "Fix bug A", Column.NOT_SET, [], 1, none⟩,
         ⟨"1", "Feature X", Column.NOT_SET, [], 1, none⟩,
         ⟨"2", "bug report", Column.NOT_SET, [], 1, none⟩] "bug" true ⟨[], 0, none⟩).results =
      [⟨"0", "Fix bug A", Column.NOT_SET, [], 1, none⟩,
       ⟨"2", "bug report", Column.NOT_SET, [], 1, none⟩]) ∧
    ((searchStep false ⟨[⟨"0", "Fix bug A", Column.NOT_SET, [], 1, none⟩,
        ⟨"2", "bug report", Column.NOT_SET, [], 1, none⟩], 0, some "0"⟩).idx = 1 ∧
      (searchStep false ⟨[⟨"0", "Fix bug A", Column.NOT_SET, [], 1, none⟩,
        ⟨"2", "bug report", Column.NOT_SET, [], 1, none⟩], 0, some "0"⟩).selected = some "2") ∧
    ((searchStep false (searchStep false ⟨[⟨"0", "Fix bug A", Column.NOT_SET, [], 1, none⟩,
        ⟨"2", "bug report", Column.NOT_SET, [], 1, none⟩], 0, some "0"⟩)).idx = 0 ∧
      (searchStep false (searchStep false ⟨[⟨"0", "Fix bug A", Column.NOT_SET, [], 1, none⟩,
        ⟨"2", "bug report", Column.NOT_SET, [], 1, none⟩], 0, some "0"⟩)).selected = some "0") := by
  refine ⟨by decide, by decide, ?_, ⟨by decide, by decide⟩, ⟨by decide, by decide⟩⟩
  exact (claim_C7_search
    [⟨"0", "Fix bug A", Column.NOT_SET, [], 1, none⟩,
     ⟨"1", "Feature X", Column.NOT_SET, [], 1, none⟩,
     ⟨"2", "bug report", Column.NOT_SET, [], 1, none⟩] "bug" true ⟨[], 0, none⟩
    ⟨[⟨"0", "Fix bug A", Column.NOT_SET, [], 1, none⟩,
      ⟨"2", "bug report", Column.NOT_SET, [], 1, none⟩], 0, some "0"⟩
    (by decide) (by decide)).1.trans (by decide)

/-- Filtering out another id does not change the entry found for this id. -/
theorem find_filter_other (xs : List (String × List String)) (t t2 : String)
    (h : ¬ t = t2) :
    (xs.filter (fun e => !(e.1 == t2))).find? (fun e => e.1 == t) =
      xs.find? (fun e => e.1 == t) := by
  have h2 : ¬ t2 = t := fun he => h he.symm
  induction xs with
  | nil => rfl
  | cons x xs ih =>
    by_cases hx : x.1 = t
    · have hx2 : ¬ x.1 = t2 := by rw [hx]; exact h
      simp [List.filter_cons, List.find?_cons, hx, hx2, h]
    · by_cases hx2 : x.1 = t2
      · simp [List.filter_cons, List.find?_cons, hx, hx2, h2, ih]
      · simp [List.filter_cons, List.find?_cons, hx, hx2, ih]

/-- After registering labels for an id, that id's pending entry holds them. -/
theorem pendingFor_upd_self (s : DbState) (t : String) (l : List String) :
    pendingFor (dbStep s (.upd t l)) t = some l := by
  unfold pendingFor dbStep
  rw [List.find?_append]
  have hnone : (s.pending.filter (fun e => !(e.1 == t))).find? (fun e => e.1 == t) = none := by
    rw [List.find?_eq_none]
    intro x hx
    have := (List.mem_filter.1 hx).2
    simp at this
    simp [this]
  rw [hnone]
  simp [List.find?_cons]

/-- Registering labels for one id leaves another id's pending entry alone. -/
theorem pendingFor_upd_other (s : DbState) (t t2 : String) (l : List String)
    (h : ¬ t = t2) :
    pendingFor (dbStep s (.upd t2 l)) t = pendingFor s t := by
  unfold pendingFor dbStep
  rw [List.find?_append, find_filter_other s.pending t t2 h]
  cases hf : s.pending.find? (fun e => e.1 == t) with
  | some e => rfl
  | none =>
    have : ¬ t2 = t := fun he => h he.symm
    simp [List.find?_cons, this]

/-- After a fire for this id, no pending entry remains for it. -/
theorem pendingFor_fire_self (s : DbState) (t : String) :
    pendingFor (dbStep s (.fire t)) t = none := by
  cases hf : s.pending.find? (fun e => e.1 == t) with
  | none =>
    have hstep : dbStep s (.fire t) = s := by simp [dbStep, hf]
    rw [hstep]
    simp [pendingFor, hf]
  | some e =>
    have hstep : dbStep s (.fire t) =
        ⟨s.pending.filter (fun x => !(x.1 == t)), s.sent ++ [(t, e.2)]⟩ := by
      simp [dbStep, hf]
    have hnone : (s.pending.filter (fun x => !(x.1 == t))).find? (fun e => e.1 == t) = none := by
      rw [List.find?_eq_none]
      intro x hx
      have := (List.mem_filter.1 hx).2
      simp at this
      simp [this]
    rw [hstep]
    unfold pendingFor
    rw [hnone]
    rfl

/-- A fire for another id leaves this id's pending entry alone. -/
theorem pendingFor_fire_other (s : DbState) (t t2 : String) (h : ¬ t = t2) :
    pendingFor (dbStep s (.fire t2)) t = pendingFor s t := by
  cases hf : s.pending.find? (fun e => e.1 == t2) with
  | none =>
    have hstep : dbStep s (.fire t2) = s := by simp [dbStep, hf]
    rw [hstep]
  | some e =>
    have hstep : dbStep s (.fire t2) =
        ⟨s.pending.filter (fun x => !(x.1 == t2)), s.sent ++ [(t2, e.2)]⟩ := by
      simp [dbStep, hf]
    rw [hstep]
    unfold pendingFor
    rw [find_filter_other s.pending t t2 h]

/-- Invariant of the debounced updater: starting from a state whose pending
entry for an id is the final label set (or nothing), running any events that
never register that id again keeps that shape and can only ever send that
final label set for that id. -/
theorem dbRun_inv (t : String) (l2 : List String) :
    ∀ (evs : List DbEvent) (s : DbState),
      (∀ l, DbEvent.upd t l ∉ evs) →
      (pendingFor s t = some l2 ∨ pendingFor s t = none) →
      ((pendingFor (dbRun s evs) t = some l2 ∨ pendingFor (dbRun s evs) t = none) ∧
       ∀ l, (t, l) ∈ (dbRun s evs).sent → (t, l) ∈ s.sent ∨ l = l2) := by
  intro evs
  induction evs with
  | nil => exact fun s _ hp => ⟨hp, fun l hl => Or.inl hl⟩
  | cons ev evs ih =>
    intro s hev hp
    have hev2 : ∀ l, DbEvent.upd t l ∉ evs := fun l hl => hev l (List.mem_cons_of_mem _ hl)
    have hrun : dbRun s (ev :: evs) = dbRun (dbStep s ev) evs := rfl
    cases ev with
    | upd t2 l =>
      have ht2 : ¬ t = t2 := by
        intro he
        exact hev l (by rw [he]; exact List.mem_cons_self _ _)
      have hpend := pendingFor_upd_other s t t2 l ht2
      obtain ⟨h1, h2⟩ := ih (dbStep s (.upd t2 l)) hev2 (by rw [hpend]; exact hp)
      rw [hrun]
      refine ⟨h1, fun l3 hl3 => ?_⟩
      rcases h2 l3 hl3 with h3 | h3
      · exact Or.inl (by simpa [dbStep] using h3)
      · exact Or.inr h3
    | fire t2 =>
      by_cases hts : t = t2
      · subst hts
        cases hf : s.pending.find? (fun e => e.1 == t) with
        | none =>
          have hstep : dbStep s (.fire t) = s := by simp [dbStep, hf]
          rw [hrun, hstep]
          exact ih s hev2 hp
        | some e =>
          have hsome : pendingFor s t = some e.2 := by simp [pendingFor, hf]
          have hel2 : e.2 = l2 := by
            rcases hp with hp | hp
            · rw [hsome] at hp; injection hp
            · rw [hsome] at hp; cases hp
          obtain ⟨h1, h2⟩ := ih (dbStep s (.fire t)) hev2 (Or.inr (pendingFor_fire_self s t))
          rw [hrun]
          refine ⟨h1, fun l3 hl3 => ?_⟩
          rcases h2 l3 hl3 with h3 | h3
          · have hsent : (dbStep s (.fire t)).sent = s.sent ++ [(t, e.2)] := by
              simp [dbStep, hf]
            rw [hsent] at h3
            rcases List.mem_append.1 h3 with h4 | h4
            · exact Or.inl h4
            · right
              have : (t, l3) = (t, e.2) := by simpa using h4
              rw [← hel2]
              exact (Prod.mk.injEq _ _ _ _ ▸ this).2
          · exact Or.inr h3
      · have hpend := pendingFor_fire_other s t t2 hts
        obtain ⟨h1, h2⟩ := ih (dbStep s (.fire t2)) hev2 (by rw [hpend]; exact hp)
        rw [hrun]
        refine ⟨h1, fun l3 hl3 => ?_⟩
        rcases h2 l3 hl3 with h3 | h3
        · left
          cases hf : s.pending.find? (fun e => e.1 == t2) with
          | none => simpa [dbStep, hf] using h3
          | some e =>
            have hsent : (dbStep s (.fire t2)).sent = s.sent ++ [(t2, e.2)] := by
              simp [dbStep, hf]
            rw [hsent] at h3
            rcases List.mem_append.1 h3 with h4 | h4
            · exact h4
            · exfalso
              have : t = t2 := by
                have h5 : (t, l3) = (t2, e.2) := by simpa using h4
                exact (Prod.mk.injEq _ _ _ _ ▸ h5).1
              exact hts this
        · exact Or.inr h3

/-- C4: when two label updates for the same task id are registered before
either fires, the first is superseded — the id's sole pending entry carries
the second's labels — and whatever happens next (with no further updates for
that id), only the second's labels are ever sent for it; updates for a
different id leave the first id's pending entry untouched. -/
theorem claim_C4_debounce (s : DbState) (t t2 : String) (l1 l2 l3 : List String)
    (evs : List DbEvent) (hev : ∀ l, DbEvent.upd t l ∉ evs) (hne : ¬ t2 = t) :
    pendingFor (dbStep (dbStep s (.upd t l1)) (.upd t l2)) t = some l2 ∧
    (∀ l, (t, l) ∈ (dbRun (dbStep (dbStep s (.upd t l1)) (.upd t l2)) evs).sent →
      (t, l) ∈ s.sent ∨ l = l2) ∧
    pendingFor (dbStep (dbStep s (.upd t l1)) (.upd t2 l3)) t = some l1 := by
  have hself : pendingFor (dbStep (dbStep s (.upd t l1)) (.upd t l2)) t = some l2 :=
    pendingFor_upd_self _ t l2
  have hsent0 : (dbStep (dbStep s (.upd t l1)) (.upd t l2)).sent = s.sent := rfl
  obtain ⟨-, h2⟩ := dbRun_inv t l2 evs (dbStep (dbStep s (.upd t l1)) (.upd t l2))
    hev (Or.inl hself)
  refine ⟨hself, fun l hl => ?_, ?_⟩
  · rcases h2 l hl with h3 | h3
    · exact Or.inl (by rwa [hsent0] at h3)
    · exact Or.inr h3
  · rw [pendingFor_upd_other _ t t2 l3 (fun he => hne he.symm)]
    exact pendingFor_upd_self s t l1

/-- C4 witness: two updates for task id "1" then two timer expiries — only the
second label set is sent — while an update for id "2" in between does not
cancel the pending entry of "1". -/
theorem claim_C4_witness :
    (∀ l, DbEvent.upd "1" l ∉ [DbEvent.fire "1", DbEvent.fire "1"]) ∧
    (¬ "2" = "1") ∧
    (pendingFor (dbStep (dbStep ⟨[], []⟩ (.upd "1" ["a"])) (.upd "1" ["b"])) "1" = some ["b"] ∧
      (∀ l, ("1", l) ∈ (dbRun (dbStep (dbStep ⟨[], []⟩ (.upd "1" ["a"])) (.upd "1" ["b"]))
          [DbEvent.fire "1", DbEvent.fire "1"]).sent →
        ("1", l) ∈ (⟨[], []⟩ : DbState).sent ∨ l = ["b"]) ∧
      pendingFor (dbStep (dbStep ⟨[], []⟩ (.upd "1" ["a"])) (.upd "2" ["c"])) "1" = some ["a"]) := by
  have hev : ∀ l, DbEvent.upd "1" l ∉ [DbEvent.fire "1", DbEvent.fire "1"] := by
    intro l hl
    rcases List.mem_cons.1 hl with h | h
    · cases h
    · rcases List.mem_cons.1 h with h2 | h2
      · cases h2
      · cases h2
  exact ⟨hev, by decide,
    claim_C4_debounce ⟨[], []⟩ "1" "2" ["a"] ["b"] ["c"]
      [DbEvent.fire "1", DbEvent.fire "1"] hev (by decide)⟩

/-- The ordering the spec describes for the displayed list: higher priority
first; among equal priorities earlier due date first, dated before undated,
and two undated tasks unordered. -/
def claimOrder (a b : KTask) : Prop :=
  b.priority < a.priority ∨
  (a.priority = b.priority ∧
    ((∃ da db, a.dueDate = some da ∧ b.dueDate = some db ∧ da ≤ db) ∨
     ((∃ da, a.dueDate = some da) ∧ b.dueDate = none) ∨
     (a.dueDate = none ∧ b.dueDate = none)))

/-- The due-date leg is reflexive. -/
theorem dueLe_refl : ∀ x : Option Int, dueLe x x = true := by
  intro x; cases x <;> simp [dueLe]

/-- The due-date leg is total. -/
theorem dueLe_total : ∀ x y : Option Int, (dueLe x y || dueLe y x) = true := by
  intro x y; cases x <;> cases y <;> (simp [dueLe]; try omega)

/-- The due-date leg is transitive. -/
theorem dueLe_trans : ∀ x y z : Option Int,
    dueLe x y = true → dueLe y z = true → dueLe x z = true := by
  intro x y z
  cases x <;> cases y <;> cases z <;> (simp [dueLe]; try omega)

/-- The comparator order is total. -/
theorem taskLe_total : ∀ a b : KTask, (taskLe a b || taskLe b a) = true := by
  intro a b
  unfold taskLe
  by_cases h : a.priority = b.priority
  · rw [if_pos h, if_pos h.symm]
    exact dueLe_total _ _
  · rw [if_neg h, if_neg (fun he => h he.symm)]
    simp only [Bool.or_eq_true, decide_eq_true_eq]
    omega

/-- The comparator order is transitive. -/
theorem taskLe_trans : ∀ a b c : KTask,
    taskLe a b = true → taskLe b c = true → taskLe a c = true := by
  intro a b c h1 h2
  unfold taskLe at h1 h2 ⊢
  by_cases hab : a.priority = b.priority <;> by_cases hbc : b.priority = c.priority
  · rw [if_pos hab] at h1
    rw [if_pos hbc] at h2
    rw [if_pos (hab.trans hbc)]
    exact dueLe_trans _ _ _ h1 h2
  · rw [if_pos hab] at h1
    rw [if_neg hbc] at h2
    rw [if_neg (by rw [hab]; exact hbc)]
    simp only [decide_eq_true_eq] at h2 ⊢
    omega
  · rw [if_neg hab] at h1
    rw [if_pos hbc] at h2
    rw [if_neg (fun he => hab (he.trans hbc.symm))]
    simp only [decide_eq_true_eq] at h1 ⊢
    omega
  · rw [if_neg hab] at h1
    rw [if_neg hbc] at h2
    simp only [decide_eq_true_eq] at h1 h2
    by_cases hac : a.priority = c.priority
    · exact absurd (by omega : a.priority = b.priority) hab
    · rw [if_neg hac]
      simp only [decide_eq_true_eq]
      omega

/-- Tasks with the same sort key are tied under the comparator. -/
theorem sortKey_taskLe (a b : KTask) (h : sortKey a = sortKey b) : taskLe a b = true := by
  unfold sortKey at h
  have h1 : a.priority = b.priority := congrArg Prod.fst h
  have h2 : a.dueDate = b.dueDate := congrArg Prod.snd h
  unfold taskLe
  rw [if_pos h1, h2]
  exact dueLe_refl _

/-- The comparator agrees with the spec ordering. -/
theorem taskLe_iff_claimOrder (a b : KTask) : taskLe a b = true ↔ claimOrder a b := by
  unfold taskLe claimOrder
  by_cases h : a.priority = b.priority
  · rw [if_pos h]
    constructor
    · intro h1
      right
      refine ⟨h, ?_⟩
      cases ha : a.dueDate with
      | none =>
        cases hb : b.dueDate with
        | none => exact Or.inr (Or.inr ⟨rfl, rfl⟩)
        | some db => rw [ha, hb] at h1; simp [dueLe] at h1
      | some da =>
        cases hb : b.dueDate with
        | none => exact Or.inr (Or.inl ⟨⟨da, rfl⟩, rfl⟩)
        | some db =>
          rw [ha, hb] at h1
          exact Or.inl ⟨da, db, rfl, rfl, by simpa [dueLe] using h1⟩
    · rintro (hlt | ⟨-, hcase⟩)
      · exact absurd hlt (by omega)
      · rcases hcase with ⟨da, db, ha, hb, hle⟩ | ⟨⟨da, ha⟩, hb⟩ | ⟨ha, hb⟩ <;>
          rw [ha, hb] <;> simp [dueLe]
        exact hle
  · rw [if_neg h]
    simp only [decide_eq_true_eq]
    constructor
    · intro h1
      left
      omega
    · rintro (h1 | ⟨h1, -⟩)
      · omega
      · exact absurd h1 h

/-- C6: the displayed ordering is a stable sort — the output is a permutation
of the input, pairwise ordered by priority descending then due date ascending
with undated tasks after dated ones of equal priority, and every tie class
(equal priority and due date) keeps its input order. -/
theorem claim_C6_sort (tasks : List KTask) :
    (sortTasks tasks).Perm tasks ∧
    (sortTasks tasks).Pairwise claimOrder ∧
    ∀ k : Int × Option Int,
      (sortTasks tasks).filter (fun t => sortKey t == k) =
        tasks.filter (fun t => sortKey t == k) := by
  refine ⟨List.mergeSort_perm tasks taskLe, ?_, ?_⟩
  · have hs := @List.sorted_mergeSort KTask taskLe
      (fun a b c => taskLe_trans a b c) (fun a b => taskLe_total a b) tasks
    exact hs.imp (fun h => (taskLe_iff_claimOrder _ _).1 h)
  · intro k
    have hpw : (tasks.filter (fun t => sortKey t == k)).Pairwise
        (fun a b => taskLe a b = true) := by
      apply List.pairwise_of_forall_mem_list
      intro a ha b hb
      have hka : sortKey a = k := by
        have := (List.mem_filter.1 ha).2
        simpa using this
      have hkb : sortKey b = k := by
        have := (List.mem_filter.1 hb).2
        simpa using this
      exact sortKey_taskLe a b (hka.trans hkb.symm)
    have hsub : (tasks.filter (fun t => sortKey t == k)).Sublist (sortTasks tasks) :=
      List.sublist_mergeSort (fun a b c => taskLe_trans a b c)
        (fun a b => taskLe_total a b) hpw (List.filter_sublist tasks)
    have hself : (tasks.filter (fun t => sortKey t == k)).filter
        (fun t => sortKey t == k) = tasks.filter (fun t => sortKey t == k) := by
      rw [List.filter_filter]
      apply List.filter_congr
      intro x hx
      simp
    have hsub2 : (tasks.filter (fun t => sortKey t == k)).Sublist
        ((sortTasks tasks).filter (fun t => sortKey t == k)) := by
      have := hsub.filter (fun t => sortKey t == k)
      rwa [hself] at this
    have hperm : ((sortTasks tasks).filter (fun t => sortKey t == k)).Perm
        (tasks.filter (fun t => sortKey t == k)) :=
      (List.mergeSort_perm tasks taskLe).filter _
    exact (hsub2.eq_of_length (hperm.length_eq.symm)).symm

end TodoistKanban
